import Mathlib

/-!
Verification development for the in-memory context-memory store
(`src/tools/memoryQuery.js`, `src/tools/memoryManage.js`, `src/stats.js`,
`src/utils.js`).  The JavaScript code is shallowly embedded: the mutable
`memoryStore` (a JS `Map`) becomes an insertion-ordered association list,
the mutable `memoryStats` object becomes an explicit record threaded
through the operations, and the impure `generateId()` /
`getCurrentTimestamp()` calls become explicit `freshId` / `now`
parameters (timestamps are abstracted to natural numbers; within one
operation every `getCurrentTimestamp()` call is modelled by the same
`now`, which is the only observable granularity the claims mention).
JS `Array.prototype.sort`, stable per ECMAScript 2019, is modelled by a
stable insertion sort on a numeric key, which is extensionally the unique
stable sort for the comparators the code uses.
-/

/-- Importance enum of a record: 低 (low), 中 (medium, the zod default),
高 (high), from the `importance` input schema of `memory_manage`. -/
inductive Importance where
  | low
  | medium
  | high
deriving DecidableEq, Repr

/-- Importance filter of `memory_query`: 全部 (all, the default) or one of
the three levels. -/
inductive ImpFilter where
  | all
  | low
  | medium
  | high
deriving DecidableEq, Repr

/-- Embeds the skip test of the search loop:
`if (importance !== "全部" && record.importance !== importance) continue;`
so a record is kept iff the filter is 全部 or equals its importance. -/
def ImpFilter.keeps : ImpFilter → Importance → Bool
  | .all, _ => true
  | .low, i => i == .low
  | .medium, i => i == .medium
  | .high, i => i == .high

/-- Metadata values (`z.record(z.any())` in the schema): the scalar shapes
the spec discusses — strings, numbers, booleans. -/
inductive MetaValue where
  | str (s : String)
  | num (n : Int)
  | boolean (b : Bool)
deriving DecidableEq, Repr

/-- JS `String(value)` applied to a metadata value, as in the search
comparison `String(value).toLowerCase().includes(...)` of
`memoryQuery.js`. -/
def MetaValue.toText : MetaValue → String
  | .str s => s
  | .num n => toString n
  | .boolean b => if b then "true" else "false"

/-- Metadata object: insertion-ordered key/value pairs. -/
abbrev MetaMap : Type := List (String × MetaValue)

/-- One memory record, as built by the `create_record` branch of
`memoryManage.js`. -/
structure MemoryRecord where
  id : String
  content : String
  importance : Importance
  context : String
  metadata : MetaMap
  createdAt : Nat
  updatedAt : Nat
deriving DecidableEq, Repr

/-- One topic, as built by the `create_topic` branch of
`memoryManage.js`. -/
structure Topic where
  id : String
  name : String
  description : String
  tags : List String
  records : List MemoryRecord
  createdAt : Nat
  updatedAt : Nat
deriving DecidableEq, Repr

/-- The `memoryStore` JS `Map` from topic name to topic, modelled as an
insertion-ordered association list. -/
abbrev Store : Type := List (String × Topic)

/-- JS `memoryStore.has(k)`. -/
def storeHas (s : Store) (k : String) : Bool :=
  (s : List (String × Topic)).any (fun p => p.1 == k)

/-- JS `memoryStore.get(k)` (first binding of the key). -/
def storeGet (s : Store) (k : String) : Option Topic :=
  ((s : List (String × Topic)).find? (fun p => p.1 == k)).map (fun p => p.2)

/-- JS `memoryStore.set(k, v)`: replaces the value in place when the key
is present, otherwise appends at the end (JS `Map` keeps insertion
order). -/
def storeSet (s : Store) (k : String) (v : Topic) : Store :=
  if storeHas s k then
    (s : List (String × Topic)).map (fun p => if p.1 == k then (k, v) else p)
  else
    (s : List (String × Topic)) ++ [(k, v)]

/-- JS `memoryStore.delete(k)`. -/
def storeDelete (s : Store) (k : String) : Store :=
  (s : List (String × Topic)).filter (fun p => !(p.1 == k))

/-- Number of bindings of a key in the store (1 or 0 for states reachable
through the operations). -/
def countKey (s : Store) (k : String) : Nat :=
  ((s : List (String × Topic)).filter (fun p => p.1 == k)).length

/-- The `memoryStats` object of `stats.js`: five counters.  The three
count/size fields are integers because the source enforces no floor at
zero. -/
structure MemoryStats where
  totalTopics : Int
  totalRecords : Int
  totalMemorySize : Int
  lastAccessTime : Option Nat
  accessCount : Nat
deriving DecidableEq, Repr

/-- Initial value of `memoryStats` in `stats.js`. -/
def initialStats : MemoryStats :=
  { totalTopics := 0
    totalRecords := 0
    totalMemorySize := 0
    lastAccessTime := none
    accessCount := 0 }

/-- The four action strings `updateStats` is invoked with. -/
inductive StatsEvent where
  | add_topic
  | add_record
  | remove_topic
  | remove_record
deriving DecidableEq, Repr

/-- Display text of an importance level, used by the JSON serialization
of a record. -/
def importanceText : Importance → String
  | .low => "低"
  | .medium => "中"
  | .high => "高"

/-- JSON string escaping for the two characters the serializer must
escape in the inputs under consideration. -/
def escapeJsonChar (c : Char) : List Char :=
  if c = '"' then ['\\', '"']
  else if c = '\\' then ['\\', '\\']
  else [c]

/-- JSON string literal for a Lean string. -/
def quoteJson (s : String) : String :=
  "\"" ++ String.mk ((s.data.map escapeJsonChar).flatten) ++ "\""

/-- JSON text of a metadata value. -/
def jsonOfMetaValue : MetaValue → String
  | .str s => quoteJson s
  | .num n => toString n
  | .boolean b => if b then "true" else "false"

/-- JSON text of a metadata object. -/
def jsonOfMetaMap (m : MetaMap) : String :=
  "\x7b" ++
    String.intercalate ","
      ((m : List (String × MetaValue)).map
        (fun p => quoteJson p.1 ++ ":" ++ jsonOfMetaValue p.2)) ++
  "\x7d"

/-- JSON text of a record, with the keys in the insertion order of the
object literal in `create_record` (timestamps, abstracted to naturals,
serialize as numbers). -/
def jsonOfRecord (r : MemoryRecord) : String :=
  "\x7b" ++
    "\"id\":" ++ quoteJson r.id ++
    ",\"content\":" ++ quoteJson r.content ++
    ",\"importance\":" ++ quoteJson (importanceText r.importance) ++
    ",\"context\":" ++ quoteJson r.context ++
    ",\"metadata\":" ++ jsonOfMetaMap r.metadata ++
    ",\"createdAt\":" ++ toString r.createdAt ++
    ",\"updatedAt\":" ++ toString r.updatedAt ++
  "\x7d"

/-- `calculateRecordSize` of `utils.js`: `JSON.stringify(record).length`. -/
def calculateRecordSize (r : MemoryRecord) : Int :=
  (jsonOfRecord r).length

/-- `updateStats(action, topic, record)` of `stats.js`: unconditionally
set the last access time and bump the access count, then adjust the
event counters; the `topic` argument is accepted and ignored exactly as
in the source. -/
def updateStats (ev : StatsEvent) (_topic : Option String)
    (record : Option MemoryRecord) (now : Nat) (st : MemoryStats) : MemoryStats :=
  let st := { st with lastAccessTime := some now, accessCount := st.accessCount + 1 }
  match ev with
  | .add_topic => { st with totalTopics := st.totalTopics + 1 }
  | .add_record =>
      { st with
        totalRecords := st.totalRecords + 1
        totalMemorySize :=
          st.totalMemorySize +
            (match record with
             | some r => calculateRecordSize r
             | none => 0) }
  | .remove_topic => { st with totalTopics := st.totalTopics - 1 }
  | .remove_record =>
      { st with
        totalRecords := st.totalRecords - 1
        totalMemorySize :=
          st.totalMemorySize -
            (match record with
             | some r => calculateRecordSize r
             | none => 0) }

/-- Process state: the store together with the statistics counters. -/
structure ServerState where
  store : Store
  stats : MemoryStats
deriving DecidableEq

/-- Results of the `memory_manage` tool, one constructor per formatted
text block the handler can return. -/
inductive ManageResult where
  | createdTopic (t : Topic)
  | alreadyExists (existing : Topic)
  | errEmptyContent
  | errTopicNotFound (name : String)
  | createdRecord (r : MemoryRecord)
  | updatedTopic (t : Topic)
  | errEmptyRecordId
  | errRecordNotFound (topic recordId : String)
  | updatedRecord (r : MemoryRecord)
  | confirmRequired (preview : Topic)
  | deletedTopic (t : Topic)
  | deletedRecord (r : MemoryRecord)
deriving DecidableEq, Repr

/-- True on the error and preview results (the blocks marked ❌ or ⚠️ in
the handler), false on the six success results. -/
def isErrorResult : ManageResult → Bool
  | .alreadyExists _ => true
  | .errEmptyContent => true
  | .errTopicNotFound _ => true
  | .errEmptyRecordId => true
  | .errRecordNotFound _ _ => true
  | .confirmRequired _ => true
  | _ => false

/-- Case `create_topic` of `memoryManage.js`. -/
def createTopic (freshId : String) (now : Nat) (topic description : String)
    (tags : List String) (s : ServerState) : ManageResult × ServerState :=
  match storeGet s.store topic with
  | some existing => (.alreadyExists existing, s)
  | none =>
    let newTopic : Topic :=
      { id := freshId
        name := topic
        description := description
        tags := tags
        records := []
        createdAt := now
        updatedAt := now }
    (.createdTopic newTopic,
      { store := storeSet s.store topic newTopic
        stats := updateStats .add_topic none none now s.stats })

/-- Case `create_record` of `memoryManage.js`: the empty-content check
comes first, then the topic lookup; on success the record is pushed at
the end, the topic `updatedAt` refreshed and `add_record` recorded. -/
def createRecord (freshId : String) (now : Nat) (topic content : String)
    (importance : Importance) (context : String) (metadata : MetaMap)
    (s : ServerState) : ManageResult × ServerState :=
  if content = "" then (.errEmptyContent, s)
  else
    match storeGet s.store topic with
    | none => (.errTopicNotFound topic, s)
    | some td =>
      let newRecord : MemoryRecord :=
        { id := freshId
          content := content
          importance := importance
          context := context
          metadata := metadata
          createdAt := now
          updatedAt := now }
      let td2 := { td with records := td.records ++ [newRecord], updatedAt := now }
      (.createdRecord newRecord,
        { store := storeSet s.store topic td2
          stats := updateStats .add_record (some topic) (some newRecord) now s.stats })

/-- Case `update_topic` of `memoryManage.js`: description and tags
overwrite only when non-empty, `updatedAt` always refreshed, and no
`updateStats` call is made. -/
def updateTopic (now : Nat) (topic description : String) (tags : List String)
    (s : ServerState) : ManageResult × ServerState :=
  match storeGet s.store topic with
  | none => (.errTopicNotFound topic, s)
  | some td =>
    let td := if description ≠ "" then { td with description := description } else td
    let td := if tags ≠ [] then { td with tags := tags } else td
    let td := { td with updatedAt := now }
    (.updatedTopic td, { s with store := storeSet s.store topic td })

/-- First binding of a key in a metadata object. -/
def lookupMeta (m : MetaMap) (k : String) : Option MetaValue :=
  ((m : List (String × MetaValue)).find? (fun p => p.1 == k)).map (fun p => p.2)

/-- JS object spread `\x7b ...a, ...b \x7d`: the keys of `a` in order with
the value of `b` where shared, then the keys of `b` absent from `a` in
the order of `b`. -/
def mergeMeta (a b : MetaMap) : MetaMap :=
  ((a : List (String × MetaValue)).map
    (fun p =>
      match lookupMeta b p.1 with
      | some v => (p.1, v)
      | none => p)) ++
  ((b : List (String × MetaValue)).filter
    (fun p => !((a : List (String × MetaValue)).any (fun q => q.1 == p.1))))

/-- Replace the first element satisfying the test (JS `find` returning a
reference that is then mutated in place). -/
def updateFirst (p : α → Bool) (f : α → α) : List α → List α
  | [] => []
  | x :: xs => if p x then f x :: xs else x :: updateFirst p f xs

/-- Remove the first element satisfying the test (JS `findIndex` plus
`splice(index, 1)`). -/
def removeFirst (p : α → Bool) : List α → List α
  | [] => []
  | x :: xs => if p x then xs else x :: removeFirst p xs

/-- Case `update_record` of `memoryManage.js`: content and context
overwrite only when non-empty, importance only when it differs from the
default 中, metadata shallow-merges only when non-empty; both the record
and the topic get `updatedAt := now`; no `updateStats` call. -/
def updateRecord (now : Nat) (topic recordId content : String)
    (importance : Importance) (context : String) (metadata : MetaMap)
    (s : ServerState) : ManageResult × ServerState :=
  if recordId = "" then (.errEmptyRecordId, s)
  else
    match storeGet s.store topic with
    | none => (.errTopicNotFound topic, s)
    | some td =>
      match td.records.find? (fun r => r.id == recordId) with
      | none => (.errRecordNotFound topic recordId, s)
      | some r =>
        let r2 := if content ≠ "" then { r with content := content } else r
        let r3 := if importance ≠ .medium then { r2 with importance := importance } else r2
        let r4 := if context ≠ "" then { r3 with context := context } else r3
        let r5 :=
          if metadata ≠ ([] : List (String × MetaValue)) then
            { r4 with metadata := mergeMeta r4.metadata metadata }
          else r4
        let r6 := { r5 with updatedAt := now }
        let td2 :=
          { td with
            records := updateFirst (fun rec => rec.id == recordId) (fun _ => r6) td.records
            updatedAt := now }
        (.updatedRecord r6, { s with store := storeSet s.store topic td2 })

/-- Case `delete_topic` of `memoryManage.js`: existence check, then the
confirmation gate returning a preview without mutating, then the actual
deletion recording a single `remove_topic` event. -/
def deleteTopic (now : Nat) (topic : String) (confirm : Bool)
    (s : ServerState) : ManageResult × ServerState :=
  match storeGet s.store topic with
  | none => (.errTopicNotFound topic, s)
  | some td =>
    if !confirm then (.confirmRequired td, s)
    else
      (.deletedTopic td,
        { store := storeDelete s.store topic
          stats := updateStats .remove_topic (some topic) none now s.stats })

/-- Case `delete_record` of `memoryManage.js`. -/
def deleteRecord (now : Nat) (topic recordId : String)
    (s : ServerState) : ManageResult × ServerState :=
  if recordId = "" then (.errEmptyRecordId, s)
  else
    match storeGet s.store topic with
    | none => (.errTopicNotFound topic, s)
    | some td =>
      match td.records.find? (fun r => r.id == recordId) with
      | none => (.errRecordNotFound topic recordId, s)
      | some removed =>
        let td2 :=
          { td with
            records := removeFirst (fun r => r.id == recordId) td.records
            updatedAt := now }
        (.deletedRecord removed,
          { store := storeSet s.store topic td2
            stats := updateStats .remove_record (some topic) (some removed) now s.stats })

/-- Action enum of the `memory_manage` tool. -/
inductive ManageAction where
  | create_topic
  | create_record
  | update_topic
  | update_record
  | delete_topic
  | delete_record
deriving DecidableEq, Repr

/-- Input fields of the `memory_manage` tool, with the zod defaults as
the natural values of each type. -/
structure ManageInput where
  topic : String
  description : String
  tags : List String
  content : String
  importance : Importance
  context : String
  metadata : MetaMap
  recordId : String
  confirm : Bool
deriving DecidableEq, Repr

/-- The `memory_manage` handler: dispatch on the action. -/
def memoryManage (freshId : String) (now : Nat) (a : ManageAction)
    (inp : ManageInput) (s : ServerState) : ManageResult × ServerState :=
  match a with
  | .create_topic => createTopic freshId now inp.topic inp.description inp.tags s
  | .create_record =>
      createRecord freshId now inp.topic inp.content inp.importance inp.context inp.metadata s
  | .update_topic => updateTopic now inp.topic inp.description inp.tags s
  | .update_record =>
      updateRecord now inp.topic inp.recordId inp.content inp.importance inp.context inp.metadata s
  | .delete_topic => deleteTopic now inp.topic inp.confirm s
  | .delete_record => deleteRecord now inp.topic inp.recordId s

/-- Lowercased character data of a string: JS `toLowerCase()` (the inputs
of interest are cased per `Char.toLower`). -/
def lowerData (s : String) : List Char := s.data.map Char.toLower

/-- Character-list prefix test. -/
def isPrefixCL : List Char → List Char → Bool
  | [], _ => true
  | _ :: _, [] => false
  | a :: as, b :: bs => a == b && isPrefixCL as bs

/-- Character-list substring test: JS `hay.includes(needle)`. -/
def containsCL : List Char → List Char → Bool
  | [], needle => needle.isEmpty
  | h :: t, needle => isPrefixCL needle (h :: t) || containsCL t needle

/-- JS `hay.toLowerCase().includes(needle.toLowerCase())`, the
case-insensitive test used throughout the search branch. -/
def ciIncludes (hay needle : String) : Bool :=
  containsCL (lowerData hay) (lowerData needle)

/-- One search result: topic name, record and relevance, as pushed by the
search loop of `memoryQuery.js`. -/
structure SearchHit where
  topic : String
  record : MemoryRecord
  relevance : Nat
deriving DecidableEq, Repr

/-- Body of the inner search loop for one record: the importance filter
skip, the three case-insensitive matches (the context one guarded by JS
truthiness of the context string, the metadata one coercing each value
with `String(value)`), and the relevance 3 / 2 / 1 assignment. -/
def recordHit (topicName : String) (q : String) (imp : ImpFilter)
    (r : MemoryRecord) : Option SearchHit :=
  if !(imp.keeps r.importance) then none
  else
    let contentMatch := ciIncludes r.content q
    let contextMatch := (!(r.context == "")) && ciIncludes r.context q
    let metadataMatch := r.metadata.any (fun p => ciIncludes p.2.toText q)
    if contentMatch || contextMatch || metadataMatch then
      some
        { topic := topicName
          record := r
          relevance := if contentMatch then 3 else if contextMatch then 2 else 1 }
    else none

/-- The two nested search loops: topics in store insertion order, records
in entry insertion order. -/
def scanResults : Store → String → ImpFilter → List SearchHit
  | [], _, _ => []
  | (tn, td) :: rest, q, imp =>
      td.records.filterMap (recordHit tn q imp) ++ scanResults rest q imp

/-- Stable insertion of an element in front of the first element whose
key is not larger. -/
def sinsertDesc (key : α → Nat) (x : α) : List α → List α
  | [] => [x]
  | y :: ys => if key y ≤ key x then x :: y :: ys else y :: sinsertDesc key x ys

/-- Model of JS `Array.prototype.sort` with the numeric comparator
`(a, b) => key(b) - key(a)`: a stable descending sort by the key.  The
ECMAScript sort is stable, and a stable sort is determined extensionally
by the comparator, so this insertion sort computes the same list. -/
def sortByKeyDesc (key : α → Nat) : List α → List α
  | [] => []
  | x :: xs => sinsertDesc key x (sortByKeyDesc key xs)

/-- Outcome of the `search` case of `memory_query`. -/
inductive SearchOutcome where
  | emptyQuery
  | ok (hits : List SearchHit)
deriving DecidableEq, Repr

/-- Case `search` of `memoryQuery.js`: empty-query validation, the scan,
the stable sort on relevance descending, and the `slice(0, limit)`. -/
def searchRecords (store : Store) (q : String) (imp : ImpFilter)
    (lim : Nat) : SearchOutcome :=
  if q = "" then .emptyQuery
  else .ok ((sortByKeyDesc (fun h : SearchHit => h.relevance) (scanResults store q imp)).take lim)

/-- The `importanceOrder` object 高 3, 中 2, 低 1 of the view branch. -/
def impOrder : Importance → Nat
  | .high => 3
  | .medium => 2
  | .low => 1

/-- Sort mode enum of `memory_query`: 时间 (time, the default) or 重要性
(importance). -/
inductive SortMode where
  | time
  | importance
deriving DecidableEq, Repr

/-- Outcome of the `view_topic` case of `memory_query`: the ok case holds
the truncated records and the total count used for the not-shown line. -/
inductive ViewOutcome where
  | errEmptyTopicName
  | errTopicNotFound
  | ok (shown : List MemoryRecord) (total : Nat)
deriving DecidableEq, Repr

/-- Case `view_topic` of `memoryQuery.js`: empty-name validation, topic
lookup, copy and stable sort of the records (creation time descending or
importance descending), truncation to the limit, and the total record
count reported for the remainder line. -/
def viewTopic (store : Store) (topic : String) (mode : SortMode)
    (lim : Nat) : ViewOutcome :=
  if topic = "" then .errEmptyTopicName
  else
    match storeGet store topic with
    | none => .errTopicNotFound
    | some td =>
      let sorted :=
        match mode with
        | .time => sortByKeyDesc (fun r : MemoryRecord => r.createdAt) td.records
        | .importance => sortByKeyDesc (fun r : MemoryRecord => impOrder r.importance) td.records
      .ok (sorted.take lim) td.records.length

theorem sinsertDesc_perm (key : α → Nat) (x : α) (l : List α) :
    (sinsertDesc key x l).Perm (x :: l) := by
  induction l with
  | nil => simp [sinsertDesc]
  | cons y ys ih =>
    simp only [sinsertDesc]
    split
    · exact List.Perm.refl _
    · exact (ih.cons y).trans (List.Perm.swap x y ys)

theorem sortByKeyDesc_perm (key : α → Nat) (l : List α) :
    (sortByKeyDesc key l).Perm l := by
  induction l with
  | nil => simp [sortByKeyDesc]
  | cons x xs ih =>
    exact (sinsertDesc_perm key x (sortByKeyDesc key xs)).trans (ih.cons x)

theorem sinsertDesc_pairwise (key : α → Nat) (x : α) {l : List α}
    (h : l.Pairwise (fun a b => key b ≤ key a)) :
    (sinsertDesc key x l).Pairwise (fun a b => key b ≤ key a) := by
  induction l with
  | nil => simp [sinsertDesc]
  | cons y ys ih =>
    simp only [sinsertDesc]
    rcases List.pairwise_cons.mp h with ⟨hy, hys⟩
    split
    · rename_i hle
      refine List.pairwise_cons.mpr ⟨?_, h⟩
      intro b hb
      rcases List.mem_cons.mp hb with hb | hb
      · exact hb ▸ hle
      · exact (hy b hb).trans hle
    · rename_i hle
      refine List.pairwise_cons.mpr ⟨?_, ih hys⟩
      intro b hb
      rcases List.mem_cons.mp ((sinsertDesc_perm key x ys).mem_iff.mp hb) with hb | hb
      · exact hb ▸ Nat.le_of_lt (Nat.lt_of_not_le hle)
      · exact hy b hb

theorem sortByKeyDesc_pairwise (key : α → Nat) (l : List α) :
    (sortByKeyDesc key l).Pairwise (fun a b => key b ≤ key a) := by
  induction l with
  | nil => simp [sortByKeyDesc]
  | cons x xs ih => exact sinsertDesc_pairwise key x ih

theorem sinsertDesc_filter (key : α → Nat) (p : α → Bool)
    (hp : ∀ a b, p a = true → p b = true → key a = key b) (x : α) (l : List α) :
    (sinsertDesc key x l).filter p = (x :: l).filter p := by
  induction l with
  | nil => rfl
  | cons y ys ih =>
    simp only [sinsertDesc]
    split
    · rfl
    · rename_i hle
      by_cases hx : p x = true
      · have hy : p y = false := by
          cases hyv : p y
          · rfl
          · exact absurd (hp y x hyv hx ▸ Nat.le_refl (key y)) hle
        simp [List.filter_cons, hx, hy, ih]
      · have hx2 : p x = false := by
          cases hxv : p x
          · rfl
          · exact absurd hxv hx
        have step : (sinsertDesc key x ys).filter p = ys.filter p := by
          have := ih
          simp [List.filter_cons, hx2] at this
          exact this
        simp [List.filter_cons, hx2, step]

theorem sortByKeyDesc_filter (key : α → Nat) (p : α → Bool)
    (hp : ∀ a b, p a = true → p b = true → key a = key b) (l : List α) :
    (sortByKeyDesc key l).filter p = l.filter p := by
  induction l with
  | nil => rfl
  | cons x xs ih =>
    have := sinsertDesc_filter key p hp x (sortByKeyDesc key xs)
    simp only [sortByKeyDesc, this, List.filter_cons]
    cases p x <;> simp [ih]

theorem storeGet_none_iff (s : Store) (k : String) :
    storeGet s k = none ↔ storeHas s k = false := by
  induction s with
  | nil => simp [storeGet, storeHas]
  | cons p rest ih =>
    by_cases hpk : p.1 = k
    · simp [storeGet, storeHas, List.find?_cons, hpk]
    · simp only [storeGet, storeHas] at ih ⊢
      simp [List.find?_cons, hpk, ih]

theorem find?_mapSet (s : Store) (k : String) (v : Topic)
    (h : storeHas s k = true) :
    ((s.map (fun p => if p.1 == k then (k, v) else p)).find?
      (fun p => p.1 == k)) = some (k, v) := by
  induction s with
  | nil => simp [storeHas] at h
  | cons p rest ih =>
    by_cases hpk : p.1 = k
    · simp only [List.map_cons]
      rw [if_pos (by simp [hpk])]
      rw [List.find?_cons_of_pos _ (by simp)]
    · have hrest : storeHas rest k = true := by
        simpa [storeHas, hpk] using h
      simp only [List.map_cons]
      rw [if_neg (by simp [hpk])]
      rw [List.find?_cons_of_neg _ (by simp [hpk])]
      exact ih hrest

theorem find?_appendSingle (s : Store) (k : String) (v : Topic)
    (h : storeHas s k = false) :
    ((s ++ [(k, v)]).find? (fun p => p.1 == k)) = some (k, v) := by
  induction s with
  | nil => rw [List.nil_append, List.find?_cons_of_pos _ (by simp)]
  | cons p rest ih =>
    have hpk : ¬ (p.1 = k) := by
      intro hc
      simp [storeHas, hc] at h
    have hrest : storeHas rest k = false := by
      simpa [storeHas, hpk] using h
    rw [List.cons_append, List.find?_cons_of_neg _ (by simp [hpk])]
    exact ih hrest

theorem storeGet_storeSet_self (s : Store) (k : String) (v : Topic) :
    storeGet (storeSet s k v) k = some v := by
  unfold storeSet
  cases h : storeHas s k
  · rw [if_neg (by simp)]
    unfold storeGet
    rw [find?_appendSingle s k v h]
    rfl
  · rw [if_pos rfl]
    unfold storeGet
    rw [find?_mapSet s k v h]
    rfl

theorem find?_mapSet_other (s : Store) (k k2 : String) (v : Topic)
    (h : ¬ (k = k2)) :
    ((s.map (fun p => if p.1 == k then (k, v) else p)).find?
      (fun p => p.1 == k2)) = s.find? (fun p => p.1 == k2) := by
  induction s with
  | nil => simp
  | cons p rest ih =>
    by_cases hpk : p.1 = k
    · have hpk2 : ¬ (p.1 = k2) := by
        rw [hpk]
        exact h
      simp only [List.map_cons]
      rw [if_pos (by simp [hpk])]
      rw [List.find?_cons_of_neg _ (by simp [h]),
        List.find?_cons_of_neg _ (by simp [hpk2])]
      exact ih
    · by_cases hpk2 : p.1 = k2
      · simp only [List.map_cons]
        rw [if_neg (by simp [hpk])]
        rw [List.find?_cons_of_pos _ (by simp [hpk2]),
          List.find?_cons_of_pos _ (by simp [hpk2])]
      · simp only [List.map_cons]
        rw [if_neg (by simp [hpk])]
        rw [List.find?_cons_of_neg _ (by simp [hpk2]),
          List.find?_cons_of_neg _ (by simp [hpk2])]
        exact ih

theorem find?_appendSingle_other (s : Store) (k k2 : String) (v : Topic)
    (h : ¬ (k = k2)) :
    ((s ++ [(k, v)]).find? (fun p => p.1 == k2)) = s.find? (fun p => p.1 == k2) := by
  induction s with
  | nil =>
    rw [List.nil_append, List.find?_cons_of_neg _ (by simp [h])]
  | cons p rest ih =>
    by_cases hpk2 : p.1 = k2
    · rw [List.cons_append, List.find?_cons_of_pos _ (by simp [hpk2]),
        List.find?_cons_of_pos _ (by simp [hpk2])]
    · rw [List.cons_append, List.find?_cons_of_neg _ (by simp [hpk2]),
        List.find?_cons_of_neg _ (by simp [hpk2])]
      exact ih

theorem storeGet_storeSet_other (s : Store) (k k2 : String) (v : Topic)
    (h : ¬ (k = k2)) :
    storeGet (storeSet s k v) k2 = storeGet s k2 := by
  unfold storeSet
  cases hhas : storeHas s k
  · rw [if_neg (by simp)]
    unfold storeGet
    rw [find?_appendSingle_other s k k2 v h]
  · rw [if_pos rfl]
    unfold storeGet
    rw [find?_mapSet_other s k k2 v h]

theorem find?_filterOut (s : Store) (k : String) :
    ((s.filter (fun p => !(p.1 == k))).find? (fun p => p.1 == k)) = none := by
  induction s with
  | nil => simp
  | cons p rest ih =>
    by_cases hpk : p.1 = k
    · simp [List.filter_cons, hpk, ih]
    · simp [List.filter_cons, List.find?_cons, hpk, ih]

theorem storeGet_storeDelete_self (s : Store) (k : String) :
    storeGet (storeDelete s k) k = none := by
  simp [storeGet, storeDelete, find?_filterOut]

theorem find?_filterOut_other (s : Store) (k k2 : String) (h : ¬ (k2 = k)) :
    ((s.filter (fun p => !(p.1 == k))).find? (fun p => p.1 == k2)) =
      s.find? (fun p => p.1 == k2) := by
  induction s with
  | nil => simp
  | cons p rest ih =>
    have hkk2 : ¬ (k = k2) := fun hc => h hc.symm
    by_cases hpk : p.1 = k
    · have hpk2 : ¬ (p.1 = k2) := by
        rw [hpk]
        exact hkk2
      simp [List.filter_cons, List.find?_cons, hpk, hpk2, hkk2, ih]
    · by_cases hpk2 : p.1 = k2
      · simp [List.filter_cons, List.find?_cons, hpk, hpk2, h, hkk2]
      · simp [List.filter_cons, List.find?_cons, hpk, hpk2, h, hkk2, ih]

theorem storeGet_storeDelete_other (s : Store) (k k2 : String)
    (h : ¬ (k2 = k)) :
    storeGet (storeDelete s k) k2 = storeGet s k2 := by
  simp [storeGet, storeDelete, find?_filterOut_other s k k2 h]

theorem countKey_eq_zero (s : Store) (k : String)
    (h : storeHas s k = false) : countKey s k = 0 := by
  induction s with
  | nil => rfl
  | cons p rest ih =>
    have hpk : ¬ (p.1 = k) := by
      intro hc
      simp [storeHas, hc] at h
    have hrest : storeHas rest k = false := by
      simpa [storeHas, hpk] using h
    simp only [countKey] at ih ⊢
    simp [List.filter_cons, hpk, ih hrest]

theorem countKey_append_one (s : Store) (k : String) (v : Topic) :
    countKey (s ++ [(k, v)]) k = countKey s k + 1 := by
  simp [countKey, List.filter_append]

theorem removeFirst_length {p : α → Bool} {l : List α} {a : α}
    (h : l.find? p = some a) :
    l.length = (removeFirst p l).length + 1 := by
  induction l with
  | nil => simp at h
  | cons x xs ih =>
    cases hx : p x
    · rw [List.find?_cons_of_neg _ (by simp [hx])] at h
      simp [removeFirst, hx, ih h]
    · simp [removeFirst, hx]

theorem lookupMeta_append (a b : MetaMap) (k : String) :
    lookupMeta (a ++ b) k = (lookupMeta a k).or (lookupMeta b k) := by
  induction a with
  | nil => simp [lookupMeta, Option.or]
  | cons p rest ih =>
    by_cases hpk : p.1 = k
    · simp [lookupMeta, List.find?_cons, hpk, Option.or]
    · simp only [List.cons_append]
      simp [lookupMeta, List.find?_cons, hpk, Option.or] at ih ⊢
      exact ih

theorem lookupMeta_mapOverwrite (a b : MetaMap) (k : String) :
    lookupMeta (a.map (fun p =>
      match lookupMeta b p.1 with
      | some v => (p.1, v)
      | none => p)) k =
    (a.find? (fun p => p.1 == k)).map (fun p =>
      match lookupMeta b p.1 with
      | some v => v
      | none => p.2) := by
  induction a with
  | nil => simp [lookupMeta]
  | cons p rest ih =>
    simp only [List.map_cons]
    simp only [lookupMeta] at ih
    cases hb : lookupMeta b p.1 with
    | none =>
      simp only [lookupMeta] at hb
      by_cases hpk : p.1 = k
      · rw [hpk] at hb
        simp [lookupMeta, List.find?_cons, hpk, hb]
      · simp [lookupMeta, List.find?_cons, hpk, hb, ih, -List.find?_map]
    | some v =>
      simp only [lookupMeta] at hb
      by_cases hpk : p.1 = k
      · rw [hpk] at hb
        simp [lookupMeta, List.find?_cons, hpk, hb]
      · simp [lookupMeta, List.find?_cons, hpk, hb, ih, -List.find?_map]

theorem lookupMeta_filterNew (a b : MetaMap) (k : String) :
    lookupMeta (b.filter (fun p => !(a.any (fun q => q.1 == p.1)))) k =
      if a.any (fun q => q.1 == k) then none else lookupMeta b k := by
  induction b with
  | nil => simp [lookupMeta]
  | cons y ys ih =>
    by_cases hyk : y.1 = k
    · cases hay : a.any (fun q => q.1 == k)
      · simp [lookupMeta, List.filter_cons, List.find?_cons, hyk, hay]
      · simp [lookupMeta, List.filter_cons, hyk, hay] at ih ⊢
        exact ih
    · cases hay : a.any (fun q => q.1 == y.1)
      · simp only [lookupMeta] at ih ⊢
        simp [List.filter_cons, List.find?_cons, hyk, hay, ih, -List.find?_filter]
      · simp only [lookupMeta] at ih ⊢
        simp [List.filter_cons, List.find?_cons, hyk, hay, ih, -List.find?_filter]

theorem lookupMeta_mergeMeta (a b : MetaMap) (k : String) :
    lookupMeta (mergeMeta a b) k = (lookupMeta b k).or (lookupMeta a k) := by
  unfold mergeMeta
  rw [lookupMeta_append, lookupMeta_mapOverwrite, lookupMeta_filterNew]
  cases hfind : a.find? (fun p => p.1 == k) with
  | none =>
    have hany : a.any (fun q => q.1 == k) = false := by
      cases h2 : a.any (fun q => q.1 == k)
      · rfl
      · rcases List.any_eq_true.mp h2 with ⟨x, hx, hpx⟩
        exact absurd hpx (List.find?_eq_none.mp hfind x hx)
    have hla : lookupMeta a k = none := by
      simp [lookupMeta, hfind]
    cases hb : lookupMeta b k <;> simp [hany, hla, hb, Option.or]
  | some p0 =>
    have hp0k : p0.1 = k := by
      have := List.find?_some hfind
      simpa using this
    have hany : a.any (fun q => q.1 == k) = true := by
      refine List.any_eq_true.mpr ⟨p0, List.mem_of_find?_eq_some hfind, ?_⟩
      simp [hp0k]
    have hla : lookupMeta a k = some p0.2 := by
      simp [lookupMeta, hfind]
    cases hb : lookupMeta b k <;>
      simp [hany, hla, hb, hp0k, Option.or]

/-- Fixture: the high-importance record of the scenario in the spec. -/
def recHelloWorld : MemoryRecord :=
  { id := "r1"
    content := "hello world"
    importance := .high
    context := ""
    metadata := []
    createdAt := 1
    updatedAt := 1 }

/-- Fixture: the low-importance record of the scenario in the spec. -/
def recSecond : MemoryRecord :=
  { id := "r2"
    content := "second"
    importance := .low
    context := ""
    metadata := []
    createdAt := 2
    updatedAt := 2 }

/-- Fixture: the Notes topic holding the two scenario records. -/
def topicNotes : Topic :=
  { id := "t1"
    name := "Notes"
    description := ""
    tags := []
    records := [recHelloWorld, recSecond]
    createdAt := 0
    updatedAt := 2 }

/-- Fixture: a store holding only the Notes topic. -/
def storeNotes : Store := [("Notes", topicNotes)]

/-- Fixture: server state with the Notes store and counters as tracked
after one add-topic and two add-record events (sizes omitted). -/
def stateNotes : ServerState :=
  { store := storeNotes
    stats :=
      { totalTopics := 1
        totalRecords := 2
        totalMemorySize := 0
        lastAccessTime := none
        accessCount := 3 } }

/-- Fixture: a record whose metadata holds a numeric (non-string) value
and whose other fields do not contain the digit 4. -/
def recNumMeta : MemoryRecord :=
  { id := "m1"
    content := "zzz"
    importance := .medium
    context := ""
    metadata := [("count", MetaValue.num 42)]
    createdAt := 1
    updatedAt := 1 }

/-- Fixture: a topic holding only the numeric-metadata record. -/
def topicMeta : Topic :=
  { id := "t2"
    name := "T"
    description := ""
    tags := []
    records := [recNumMeta]
    createdAt := 0
    updatedAt := 1 }

/-- Fixture: a store holding only the numeric-metadata topic. -/
def storeMeta : Store := [("T", topicMeta)]

/-- C1 counterexample: deleting the Notes topic (2 records, recorded
entry count 2) with confirm leaves the entry counter at 2; the claim
expects it to drop by the number of deleted entries, to 0.  The
delete_topic branch records a single remove_topic event and never
touches the record counter. -/
theorem c1_delete_topic_counterexample :
    (deleteTopic 9 "Notes" true stateNotes).2.stats.totalRecords = 2 ∧
    ¬ ((deleteTopic 9 "Notes" true stateNotes).2.stats.totalRecords
        = stateNotes.stats.totalRecords - 2) := by
  decide

/-- C1 (amended): deleting without confirm never mutates the state (so
the store size never shrinks, and on an existing topic the result is the
confirmation preview); deleting an existing topic with confirm removes
it with all its entries, leaves every other topic binding unchanged, and
in the statistics decrements the topic counter by one while leaving the
entry and size counters unchanged (and bumps the access counter). -/
theorem c1_delete_topic (now : Nat) (topic : String) (s : ServerState) :
    (deleteTopic now topic false s).2 = s ∧
    (∀ td, storeGet s.store topic = some td →
      (deleteTopic now topic false s).1 = ManageResult.confirmRequired td ∧
      (deleteTopic now topic true s).1 = ManageResult.deletedTopic td ∧
      storeGet (deleteTopic now topic true s).2.store topic = none ∧
      (∀ k2, ¬ (k2 = topic) →
        storeGet (deleteTopic now topic true s).2.store k2 = storeGet s.store k2) ∧
      (deleteTopic now topic true s).2.stats.totalTopics = s.stats.totalTopics - 1 ∧
      (deleteTopic now topic true s).2.stats.totalRecords = s.stats.totalRecords ∧
      (deleteTopic now topic true s).2.stats.totalMemorySize = s.stats.totalMemorySize ∧
      (deleteTopic now topic true s).2.stats.accessCount = s.stats.accessCount + 1 ∧
      (deleteTopic now topic true s).2.stats.lastAccessTime = some now) := by
  constructor
  · cases h : storeGet s.store topic <;> simp [deleteTopic, h]
  · intro td h
    refine ⟨by simp [deleteTopic, h], by simp [deleteTopic, h], ?_, ?_, ?_⟩
    · simp [deleteTopic, h, storeGet_storeDelete_self]
    · intro k2 hk2
      simp [deleteTopic, h, storeGet_storeDelete_other s.store topic k2 hk2]
    · simp [deleteTopic, h, updateStats]

/-- C1 witness: the amended theorem evaluated on the Notes state. -/
theorem c1_delete_topic_witness :
    (deleteTopic 9 "Notes" false stateNotes).2 = stateNotes ∧
    (deleteTopic 9 "Notes" false stateNotes).1 = ManageResult.confirmRequired topicNotes ∧
    (deleteTopic 9 "Notes" true stateNotes).1 = ManageResult.deletedTopic topicNotes ∧
    storeGet (deleteTopic 9 "Notes" true stateNotes).2.store "Notes" = none ∧
    storeGet (deleteTopic 9 "Notes" true stateNotes).2.store "Other" =
      storeGet stateNotes.store "Other" ∧
    (deleteTopic 9 "Notes" true stateNotes).2.stats.totalTopics =
      stateNotes.stats.totalTopics - 1 ∧
    (deleteTopic 9 "Notes" true stateNotes).2.stats.totalRecords =
      stateNotes.stats.totalRecords := by
  have h0 := (c1_delete_topic 9 "Notes" stateNotes).1
  have H := (c1_delete_topic 9 "Notes" stateNotes).2 topicNotes (by decide)
  exact ⟨h0, H.1, H.2.1, H.2.2.1, H.2.2.2.1 "Other" (by decide),
    H.2.2.2.2.1, H.2.2.2.2.2.1⟩

/-- C2: search fails exactly when the query is empty; otherwise the
result is the scan list (topics in insertion order, records in insertion
order, importance filter applied, case-insensitive matches, relevance
3 / 2 / 1) sorted by relevance descending with a stable sort (the
sublist at each relevance value keeps the scan order) and truncated to
the limit. -/
theorem c2_search (store : Store) (q : String) (imp : ImpFilter) (lim : Nat) :
    (searchRecords store q imp lim = SearchOutcome.emptyQuery ↔ q = "") ∧
    (q ≠ "" →
      searchRecords store q imp lim =
        SearchOutcome.ok
          ((sortByKeyDesc (fun h : SearchHit => h.relevance)
            (scanResults store q imp)).take lim) ∧
      (sortByKeyDesc (fun h : SearchHit => h.relevance)
        (scanResults store q imp)).Perm (scanResults store q imp) ∧
      (sortByKeyDesc (fun h : SearchHit => h.relevance)
        (scanResults store q imp)).Pairwise
        (fun a b => b.relevance ≤ a.relevance) ∧
      (∀ c : Nat,
        (sortByKeyDesc (fun h : SearchHit => h.relevance)
          (scanResults store q imp)).filter (fun h => h.relevance == c) =
        (scanResults store q imp).filter (fun h => h.relevance == c)) ∧
      ((sortByKeyDesc (fun h : SearchHit => h.relevance)
        (scanResults store q imp)).take lim).length =
        min lim (scanResults store q imp).length) := by
  constructor
  · by_cases hq : q = "" <;> simp [searchRecords, hq]
  · intro hq
    refine ⟨by simp [searchRecords, hq], sortByKeyDesc_perm _ _,
      sortByKeyDesc_pairwise _ _, ?_, ?_⟩
    · intro c
      refine sortByKeyDesc_filter _ _ ?_ _
      intro a b ha hb
      have ha2 : a.relevance = c := by simpa using ha
      have hb2 : b.relevance = c := by simpa using hb
      rw [ha2, hb2]
    · rw [List.length_take, (sortByKeyDesc_perm _ _).length_eq]

/-- C2 witness: searching HELLO over the Notes store matches the content
of the hello-world record case-insensitively with relevance 3. -/
theorem c2_search_witness :
    searchRecords storeNotes "HELLO" ImpFilter.all 20 =
      SearchOutcome.ok
        ((sortByKeyDesc (fun h : SearchHit => h.relevance)
          (scanResults storeNotes "HELLO" ImpFilter.all)).take 20) ∧
    searchRecords storeNotes "HELLO" ImpFilter.all 20 =
      SearchOutcome.ok [{ topic := "Notes", record := recHelloWorld, relevance := 3 }] := by
  have H := (c2_search storeNotes "HELLO" ImpFilter.all 20).2 (by decide)
  exact ⟨H.1, by decide⟩

/-- C3 counterexample: the claim says the search comparison against a
non-string metadata value raises an internal fault; at the cited lines
the source coerces with String(value), so on a store whose only match is
the numeric metadata value 42 the search returns that record with
relevance 1 instead of faulting. -/
theorem c3_metadata_counterexample :
    searchRecords storeMeta "4" ImpFilter.all 20 =
      SearchOutcome.ok [{ topic := "T", record := recNumMeta, relevance := 1 }] := by
  decide

/-- C3 (amended): the search comparison coerces every metadata value to
text before the case-insensitive comparison, so a record whose content
and context do not match but one of whose metadata values does is
returned with relevance 1 — no fault occurs on non-string values. -/
theorem c3_metadata_coercion (tn q : String) (imp : ImpFilter) (r : MemoryRecord)
    (hk : imp.keeps r.importance = true)
    (hc : ciIncludes r.content q = false)
    (hctx : r.context = "" ∨ ciIncludes r.context q = false)
    (hm : r.metadata.any (fun p => ciIncludes p.2.toText q) = true) :
    recordHit tn q imp r =
      some { topic := tn, record := r, relevance := 1 } := by
  have hcm : ((!(r.context == "")) && ciIncludes r.context q) = false := by
    rcases hctx with h | h
    · simp [h]
    · simp [h]
  simp [recordHit, hk, hc, hcm, hm]

/-- C3 witness: the amended theorem evaluated on the numeric-metadata
record, where String(42) contains the digit 4. -/
theorem c3_metadata_coercion_witness :
    recordHit "T" "4" ImpFilter.all recNumMeta =
      some { topic := "T", record := recNumMeta, relevance := 1 } :=
  c3_metadata_coercion "T" "4" ImpFilter.all recNumMeta (by decide) (by decide)
    (Or.inl (by decide)) (by decide)

/-- C4 counterexample: update_topic on the Notes state succeeds (not an
error result) and changes the store, yet the statistics — access count
included — are untouched, refuting that the record function runs after
every successful mutation and in particular after updates. -/
theorem c4_stats_counterexample :
    isErrorResult (updateTopic 7 "Notes" "newdesc" [] stateNotes).1 = false ∧
    (updateTopic 7 "Notes" "newdesc" [] stateNotes).2.stats = stateNotes.stats ∧
    ¬ ((updateTopic 7 "Notes" "newdesc" [] stateNotes).2.store = stateNotes.store) := by
  decide

/-- C4 (amended): updateStats is reached only from the create and delete
branches — the topic and record update branches leave the statistics
untouched; every updateStats call unconditionally bumps the access count
and sets the last-access time before adjusting the event counters; no
floor at zero is enforced, so removals beyond recorded adds drive the
counters negative. -/
theorem c4_stats_tracking :
    (∀ (ev : StatsEvent) (t : Option String) (r : Option MemoryRecord)
        (now : Nat) (st : MemoryStats),
      (updateStats ev t r now st).accessCount = st.accessCount + 1 ∧
      (updateStats ev t r now st).lastAccessTime = some now) ∧
    (∀ (t : Option String) (now : Nat) (st : MemoryStats),
      (updateStats StatsEvent.remove_topic t none now st).totalTopics =
        st.totalTopics - 1) ∧
    (∀ (t : Option String) (r : MemoryRecord) (now : Nat) (st : MemoryStats),
      (updateStats StatsEvent.remove_record t (some r) now st).totalRecords =
        st.totalRecords - 1 ∧
      (updateStats StatsEvent.remove_record t (some r) now st).totalMemorySize =
        st.totalMemorySize - calculateRecordSize r) ∧
    (updateStats StatsEvent.remove_topic none none 0
      (updateStats StatsEvent.remove_topic none none 0 initialStats)).totalTopics < 0 ∧
    (∀ (now : Nat) (topic d : String) (tg : List String) (s : ServerState),
      (updateTopic now topic d tg s).2.stats = s.stats) ∧
    (∀ (now : Nat) (topic rid c : String) (i : Importance) (cx : String)
        (m : MetaMap) (s : ServerState),
      (updateRecord now topic rid c i cx m s).2.stats = s.stats) := by
  refine ⟨?_, ?_, ?_, by decide, ?_, ?_⟩
  · intro ev t r now st
    cases ev <;> simp [updateStats]
  · intro t now st
    simp [updateStats]
  · intro t r now st
    simp [updateStats]
  · intro now topic d tg s
    cases h : storeGet s.store topic <;> simp [updateTopic, h]
  · intro now topic rid c i cx m s
    by_cases hr : rid = ""
    · simp [updateRecord, hr]
    · cases hg : storeGet s.store topic with
      | none => simp [updateRecord, hr, hg]
      | some td =>
        cases hf : td.records.find? (fun rec => rec.id == rid) with
        | none => simp [updateRecord, hr, hg, hf]
        | some r0 => simp [updateRecord, hr, hg, hf]

/-- C5: creating a topic whose name is present fails with AlreadyExists,
returns the existing topic and mutates nothing; creating a fresh name
appends a new topic with an empty record list, records an add-topic
event (topic counter and access counter up by one, record counter
unchanged), and a second create of the same name then fails with
AlreadyExists without mutating, the store holding that name exactly
once. -/
theorem c5_create_topic (freshId : String) (now : Nat) (topic d : String)
    (tg : List String) (s : ServerState) :
    (∀ ex, storeGet s.store topic = some ex →
      createTopic freshId now topic d tg s = (ManageResult.alreadyExists ex, s)) ∧
    (storeGet s.store topic = none →
      createTopic freshId now topic d tg s =
        (ManageResult.createdTopic ⟨freshId, topic, d, tg, [], now, now⟩,
          { store := s.store ++ [(topic, ⟨freshId, topic, d, tg, [], now, now⟩)]
            stats := updateStats StatsEvent.add_topic none none now s.stats }) ∧
      storeGet (createTopic freshId now topic d tg s).2.store topic =
        some ⟨freshId, topic, d, tg, [], now, now⟩ ∧
      countKey (createTopic freshId now topic d tg s).2.store topic = 1 ∧
      (createTopic freshId now topic d tg s).2.stats.totalTopics =
        s.stats.totalTopics + 1 ∧
      (createTopic freshId now topic d tg s).2.stats.totalRecords =
        s.stats.totalRecords ∧
      (createTopic freshId now topic d tg s).2.stats.accessCount =
        s.stats.accessCount + 1 ∧
      (∀ (fid2 : String) (now2 : Nat) (d2 : String) (tg2 : List String),
        createTopic fid2 now2 topic d2 tg2 (createTopic freshId now topic d tg s).2 =
          (ManageResult.alreadyExists ⟨freshId, topic, d, tg, [], now, now⟩,
            (createTopic freshId now topic d tg s).2))) := by
  constructor
  · intro ex h
    simp [createTopic, h]
  · intro h
    have hhas : storeHas s.store topic = false := (storeGet_none_iff _ _).mp h
    have hg2 : storeGet (createTopic freshId now topic d tg s).2.store topic =
        some ⟨freshId, topic, d, tg, [], now, now⟩ := by
      simp [createTopic, h, storeGet_storeSet_self]
    refine ⟨?_, hg2, ?_, ?_, ?_, ?_, ?_⟩
    · simp [createTopic, h, storeSet, hhas]
    · have hs : (createTopic freshId now topic d tg s).2.store =
          s.store ++ [(topic, ⟨freshId, topic, d, tg, [], now, now⟩)] := by
        simp [createTopic, h, storeSet, hhas]
      rw [hs, countKey_append_one, countKey_eq_zero s.store topic hhas]
    · simp [createTopic, h, updateStats]
    · simp [createTopic, h, updateStats]
    · simp [createTopic, h, updateStats]
    · intro fid2 now2 d2 tg2
      set s2 := (createTopic freshId now topic d tg s).2 with hs2
      simp [createTopic, hg2]

/-- C5 witness: the theorem evaluated on the duplicate case over the
Notes state and on the fresh case over the empty state. -/
theorem c5_create_topic_witness :
    createTopic "t9" 5 "Notes" "d" [] stateNotes =
      (ManageResult.alreadyExists topicNotes, stateNotes) ∧
    storeGet (createTopic "t9" 5 "New" "d" [] ⟨[], initialStats⟩).2.store "New" =
      some ⟨"t9", "New", "d", [], [], 5, 5⟩ ∧
    countKey (createTopic "t9" 5 "New" "d" [] ⟨[], initialStats⟩).2.store "New" = 1 ∧
    createTopic "x" 6 "New" "e" ["g"] (createTopic "t9" 5 "New" "d" [] ⟨[], initialStats⟩).2 =
      (ManageResult.alreadyExists ⟨"t9", "New", "d", [], [], 5, 5⟩,
        (createTopic "t9" 5 "New" "d" [] ⟨[], initialStats⟩).2) := by
  have H1 := (c5_create_topic "t9" 5 "Notes" "d" [] stateNotes).1 topicNotes (by decide)
  have H := (c5_create_topic "t9" 5 "New" "d" [] ⟨[], initialStats⟩).2 (by decide)
  exact ⟨H1, H.2.1, H.2.2.1, H.2.2.2.2.2.2 "x" 6 "e" ["g"]⟩

/-- C6: creating a record fails on empty content (checked first), then
fails when the topic is absent; otherwise the new record is appended at
the end of the topic records, the topic updatedAt is refreshed, and an
add-record event is recorded: record counter and access counter up by
one, size counter up by the serialized record size, topic counter
unchanged. -/
theorem c6_create_record (freshId : String) (now : Nat) (topic content : String)
    (i : Importance) (cx : String) (m : MetaMap) (s : ServerState) :
    (content = "" →
      createRecord freshId now topic content i cx m s = (ManageResult.errEmptyContent, s)) ∧
    (content ≠ "" → storeGet s.store topic = none →
      createRecord freshId now topic content i cx m s =
        (ManageResult.errTopicNotFound topic, s)) ∧
    (content ≠ "" → ∀ td, storeGet s.store topic = some td →
      createRecord freshId now topic content i cx m s =
        (ManageResult.createdRecord ⟨freshId, content, i, cx, m, now, now⟩,
          { store := storeSet s.store topic
              { td with
                records := td.records ++ [⟨freshId, content, i, cx, m, now, now⟩]
                updatedAt := now }
            stats := updateStats StatsEvent.add_record (some topic)
              (some ⟨freshId, content, i, cx, m, now, now⟩) now s.stats }) ∧
      storeGet (createRecord freshId now topic content i cx m s).2.store topic =
        some { td with
          records := td.records ++ [⟨freshId, content, i, cx, m, now, now⟩]
          updatedAt := now } ∧
      (createRecord freshId now topic content i cx m s).2.stats.totalRecords =
        s.stats.totalRecords + 1 ∧
      (createRecord freshId now topic content i cx m s).2.stats.totalMemorySize =
        s.stats.totalMemorySize + calculateRecordSize ⟨freshId, content, i, cx, m, now, now⟩ ∧
      (createRecord freshId now topic content i cx m s).2.stats.accessCount =
        s.stats.accessCount + 1 ∧
      (createRecord freshId now topic content i cx m s).2.stats.totalTopics =
        s.stats.totalTopics ∧
      (createRecord freshId now topic content i cx m s).2.stats.lastAccessTime =
        some now) := by
  refine ⟨?_, ?_, ?_⟩
  · intro hc
    simp [createRecord, hc]
  · intro hc hg
    simp [createRecord, hc, hg]
  · intro hc td hg
    refine ⟨by simp [createRecord, hc, hg], ?_, ?_⟩
    · simp [createRecord, hc, hg, storeGet_storeSet_self]
    · simp [createRecord, hc, hg, updateStats]

/-- C6 witness: the theorem evaluated on the empty-content case, the
missing-topic case and the successful append over the Notes state. -/
theorem c6_create_record_witness :
    createRecord "r9" 7 "Notes" "" Importance.medium "" [] stateNotes =
      (ManageResult.errEmptyContent, stateNotes) ∧
    createRecord "r9" 7 "Missing" "hi" Importance.medium "" [] stateNotes =
      (ManageResult.errTopicNotFound "Missing", stateNotes) ∧
    storeGet (createRecord "r9" 7 "Notes" "hi" Importance.medium "" [] stateNotes).2.store
        "Notes" =
      some { topicNotes with
        records := topicNotes.records ++ [⟨"r9", "hi", Importance.medium, "", [], 7, 7⟩]
        updatedAt := 7 } ∧
    (createRecord "r9" 7 "Notes" "hi" Importance.medium "" [] stateNotes).2.stats.totalRecords =
      stateNotes.stats.totalRecords + 1 := by
  have H0 := (c6_create_record "r9" 7 "Notes" "" Importance.medium "" [] stateNotes).1 rfl
  have H1 := (c6_create_record "r9" 7 "Missing" "hi" Importance.medium "" [] stateNotes).2.1
    (by decide) (by decide)
  have H2 := (c6_create_record "r9" 7 "Notes" "hi" Importance.medium "" [] stateNotes).2.2
    (by decide) topicNotes (by decide)
  exact ⟨H0, H1, H2.2.1, H2.2.2.1⟩

/-- C7: on an existing topic and record (with a non-empty id), the
update overwrites content and context only when the supplied string is
non-empty, overwrites importance only when it differs from the default
中 (medium), shallow-merges the supplied metadata (supplied keys win,
other keys preserved — stated through lookupMeta over mergeMeta) only
when non-empty, sets the record updatedAt and the topic updatedAt to the
operation time, and leaves the statistics untouched. -/
theorem c7_update_record (now : Nat) (topic rid content : String) (i : Importance)
    (cx : String) (m : MetaMap) (s : ServerState) (td : Topic) (r : MemoryRecord)
    (hrid : rid ≠ "")
    (hg : storeGet s.store topic = some td)
    (hf : td.records.find? (fun rec => rec.id == rid) = some r) :
    updateRecord now topic rid content i cx m s =
      (ManageResult.updatedRecord
        { id := r.id
          content := if content ≠ "" then content else r.content
          importance := if i ≠ Importance.medium then i else r.importance
          context := if cx ≠ "" then cx else r.context
          metadata := if m ≠ [] then mergeMeta r.metadata m else r.metadata
          createdAt := r.createdAt
          updatedAt := now },
        { s with
          store :=
            storeSet s.store topic
              { td with
              records := updateFirst (fun rec => rec.id == rid)
                (fun _ =>
                  { id := r.id
                    content := if content ≠ "" then content else r.content
                    importance := if i ≠ Importance.medium then i else r.importance
                    context := if cx ≠ "" then cx else r.context
                    metadata := if m ≠ [] then mergeMeta r.metadata m else r.metadata
                    createdAt := r.createdAt
                    updatedAt := now }) td.records
              updatedAt := now } }) ∧
    storeGet (updateRecord now topic rid content i cx m s).2.store topic =
      some { td with
        records := updateFirst (fun rec => rec.id == rid)
          (fun _ =>
            { id := r.id
              content := if content ≠ "" then content else r.content
              importance := if i ≠ Importance.medium then i else r.importance
              context := if cx ≠ "" then cx else r.context
              metadata := if m ≠ [] then mergeMeta r.metadata m else r.metadata
              createdAt := r.createdAt
              updatedAt := now }) td.records
        updatedAt := now } ∧
    (∀ k2, lookupMeta (mergeMeta r.metadata m) k2 =
      (lookupMeta m k2).or (lookupMeta r.metadata k2)) ∧
    (updateRecord now topic rid content i cx m s).2.stats = s.stats := by
  have key : updateRecord now topic rid content i cx m s =
      (ManageResult.updatedRecord
        { id := r.id
          content := if content ≠ "" then content else r.content
          importance := if i ≠ Importance.medium then i else r.importance
          context := if cx ≠ "" then cx else r.context
          metadata := if m ≠ [] then mergeMeta r.metadata m else r.metadata
          createdAt := r.createdAt
          updatedAt := now },
        { s with
          store :=
            storeSet s.store topic
              { td with
              records := updateFirst (fun rec => rec.id == rid)
                (fun _ =>
                  { id := r.id
                    content := if content ≠ "" then content else r.content
                    importance := if i ≠ Importance.medium then i else r.importance
                    context := if cx ≠ "" then cx else r.context
                    metadata := if m ≠ [] then mergeMeta r.metadata m else r.metadata
                    createdAt := r.createdAt
                    updatedAt := now }) td.records
              updatedAt := now } }) := by
    simp only [updateRecord, if_neg hrid, hg, hf]
    split_ifs <;> rfl
  refine ⟨key, ?_, ?_, ?_⟩
  · rw [key]
    exact storeGet_storeSet_self _ _ _
  · intro k2
    exact lookupMeta_mergeMeta r.metadata m k2
  · rw [key]

/-- C7 witness: the theorem evaluated on the Notes state, updating the
hello-world record with fresh content, high importance, a context and a
one-key metadata map. -/
theorem c7_update_record_witness :
    storeGet (updateRecord 7 "Notes" "r1" "upd" Importance.high "c"
        [("k", MetaValue.str "v")] stateNotes).2.store "Notes" =
      some { topicNotes with
        records := updateFirst (fun rec => rec.id == "r1")
          (fun _ =>
            { id := recHelloWorld.id
              content := if "upd" ≠ "" then "upd" else recHelloWorld.content
              importance := if Importance.high ≠ Importance.medium then Importance.high
                else recHelloWorld.importance
              context := if "c" ≠ "" then "c" else recHelloWorld.context
              metadata := if ([("k", MetaValue.str "v")] : MetaMap) ≠ [] then
                  mergeMeta recHelloWorld.metadata [("k", MetaValue.str "v")]
                else recHelloWorld.metadata
              createdAt := recHelloWorld.createdAt
              updatedAt := 7 }) topicNotes.records
        updatedAt := 7 } ∧
    lookupMeta (mergeMeta recHelloWorld.metadata [("k", MetaValue.str "v")]) "k" =
      (lookupMeta [("k", MetaValue.str "v")] "k").or (lookupMeta recHelloWorld.metadata "k") ∧
    (updateRecord 7 "Notes" "r1" "upd" Importance.high "c"
      [("k", MetaValue.str "v")] stateNotes).2.stats = stateNotes.stats := by
  have H := c7_update_record 7 "Notes" "r1" "upd" Importance.high "c"
    [("k", MetaValue.str "v")] stateNotes topicNotes recHelloWorld
    (by decide) (by decide) (by decide)
  exact ⟨H.2.1, H.2.2.1 "k", H.2.2.2⟩

/-- C8: updating a topic fails with NotFound when the name is absent;
on an existing topic the description is overwritten only when the
supplied string is non-empty and the tags only when the supplied list is
non-empty, every other field including the record sequence is unchanged,
updatedAt is set to the operation time even when nothing else changes,
other store bindings are untouched, and the statistics are untouched. -/
theorem c8_update_topic (now : Nat) (topic d : String) (tg : List String)
    (s : ServerState) :
    (storeGet s.store topic = none →
      updateTopic now topic d tg s = (ManageResult.errTopicNotFound topic, s)) ∧
    (∀ td, storeGet s.store topic = some td →
      updateTopic now topic d tg s =
        (ManageResult.updatedTopic
          { id := td.id
            name := td.name
            description := if d ≠ "" then d else td.description
            tags := if tg ≠ [] then tg else td.tags
            records := td.records
            createdAt := td.createdAt
            updatedAt := now },
          { s with
            store :=
              storeSet s.store topic
                { id := td.id
                  name := td.name
                  description := if d ≠ "" then d else td.description
                  tags := if tg ≠ [] then tg else td.tags
                  records := td.records
                  createdAt := td.createdAt
                  updatedAt := now } }) ∧
      storeGet (updateTopic now topic d tg s).2.store topic =
        some
          { id := td.id
            name := td.name
            description := if d ≠ "" then d else td.description
            tags := if tg ≠ [] then tg else td.tags
            records := td.records
            createdAt := td.createdAt
            updatedAt := now } ∧
      (∀ k2, ¬ (k2 = topic) →
        storeGet (updateTopic now topic d tg s).2.store k2 = storeGet s.store k2) ∧
      (updateTopic now topic d tg s).2.stats = s.stats) := by
  constructor
  · intro h
    simp [updateTopic, h]
  · intro td h
    have key : updateTopic now topic d tg s =
        (ManageResult.updatedTopic
          { id := td.id
            name := td.name
            description := if d ≠ "" then d else td.description
            tags := if tg ≠ [] then tg else td.tags
            records := td.records
            createdAt := td.createdAt
            updatedAt := now },
          { s with
            store :=
              storeSet s.store topic
                { id := td.id
                  name := td.name
                  description := if d ≠ "" then d else td.description
                  tags := if tg ≠ [] then tg else td.tags
                  records := td.records
                  createdAt := td.createdAt
                  updatedAt := now } }) := by
      simp only [updateTopic, h]
      split_ifs <;> rfl
    refine ⟨key, ?_, ?_, ?_⟩
    · rw [key]
      exact storeGet_storeSet_self _ _ _
    · intro k2 hk2
      rw [key]
      exact storeGet_storeSet_other s.store topic k2 _ (fun hc => hk2 hc.symm)
    · rw [key]

/-- C8 witness: the theorem evaluated on the missing-name case, on a
description update over the Notes state, and on an update where both
fields are empty so only updatedAt is refreshed. -/
theorem c8_update_topic_witness :
    updateTopic 7 "Missing" "D" [] stateNotes =
      (ManageResult.errTopicNotFound "Missing", stateNotes) ∧
    storeGet (updateTopic 7 "Notes" "D" [] stateNotes).2.store "Notes" =
      some
        { id := topicNotes.id
          name := topicNotes.name
          description := if ("D" : String) ≠ "" then "D" else topicNotes.description
          tags := if ([] : List String) ≠ [] then [] else topicNotes.tags
          records := topicNotes.records
          createdAt := topicNotes.createdAt
          updatedAt := 7 } ∧
    storeGet (updateTopic 8 "Notes" "" [] stateNotes).2.store "Notes" =
      some
        { id := topicNotes.id
          name := topicNotes.name
          description := if ("" : String) ≠ "" then "" else topicNotes.description
          tags := if ([] : List String) ≠ [] then [] else topicNotes.tags
          records := topicNotes.records
          createdAt := topicNotes.createdAt
          updatedAt := 8 } ∧
    (updateTopic 7 "Notes" "D" [] stateNotes).2.stats = stateNotes.stats := by
  have H0 := (c8_update_topic 7 "Missing" "D" [] stateNotes).1 (by decide)
  have H1 := (c8_update_topic 7 "Notes" "D" [] stateNotes).2 topicNotes (by decide)
  have H2 := (c8_update_topic 8 "Notes" "" [] stateNotes).2 topicNotes (by decide)
  exact ⟨H0, H1.2.1, H2.2.1, H1.2.2.2⟩

/-- C9: viewing an existing topic (non-empty name) sorted by importance
returns its records ordered by the importance rank 高 3, 中 2, 低 1
descending with a stable sort (the sublist at each importance level
keeps insertion order), truncated to the limit, together with the total
record count used for the remainder line; an absent topic yields
NotFound. -/
theorem c9_view_topic (store : Store) (topic : String) (lim : Nat)
    (htn : topic ≠ "") :
    (storeGet store topic = none →
      viewTopic store topic SortMode.importance lim = ViewOutcome.errTopicNotFound) ∧
    (∀ td, storeGet store topic = some td →
      viewTopic store topic SortMode.importance lim =
        ViewOutcome.ok
          ((sortByKeyDesc (fun r : MemoryRecord => impOrder r.importance)
            td.records).take lim)
          td.records.length ∧
      (sortByKeyDesc (fun r : MemoryRecord => impOrder r.importance)
        td.records).Perm td.records ∧
      (sortByKeyDesc (fun r : MemoryRecord => impOrder r.importance)
        td.records).Pairwise
        (fun a b => impOrder b.importance ≤ impOrder a.importance) ∧
      (∀ i : Importance,
        (sortByKeyDesc (fun r : MemoryRecord => impOrder r.importance)
          td.records).filter (fun r => r.importance == i) =
        td.records.filter (fun r => r.importance == i)) ∧
      ((sortByKeyDesc (fun r : MemoryRecord => impOrder r.importance)
        td.records).take lim).length = min lim td.records.length) := by
  constructor
  · intro h
    simp [viewTopic, htn, h]
  · intro td h
    refine ⟨by simp [viewTopic, htn, h], sortByKeyDesc_perm _ _,
      sortByKeyDesc_pairwise _ _, ?_, ?_⟩
    · intro i
      refine sortByKeyDesc_filter _ _ ?_ _
      intro a b ha hb
      have ha2 : a.importance = i := by simpa using ha
      have hb2 : b.importance = i := by simpa using hb
      rw [ha2, hb2]
    · rw [List.length_take, (sortByKeyDesc_perm _ _).length_eq]

/-- C9 witness: the theorem evaluated on the Notes store, where the
high-importance hello-world record precedes the low-importance second
record, and on a missing topic name. -/
theorem c9_view_topic_witness :
    viewTopic storeNotes "Notes" SortMode.importance 10 =
      ViewOutcome.ok
        ((sortByKeyDesc (fun r : MemoryRecord => impOrder r.importance)
          topicNotes.records).take 10)
        topicNotes.records.length ∧
    viewTopic storeNotes "Notes" SortMode.importance 10 =
      ViewOutcome.ok [recHelloWorld, recSecond] 2 ∧
    viewTopic storeNotes "Missing" SortMode.importance 10 =
      ViewOutcome.errTopicNotFound := by
  have H := (c9_view_topic storeNotes "Notes" 10 (by decide)).2 topicNotes (by decide)
  have H0 := (c9_view_topic storeNotes "Missing" 10 (by decide)).1 (by decide)
  exact ⟨H.1, by decide, H0⟩

/-- C10: every error or preview result of the management dispatcher
(duplicate name, empty content, empty record id, missing topic, missing
record, delete without confirmation) leaves the whole state — store and
all statistics counters — unchanged, and whenever the statistics change
the store has changed too, so the statistics are only touched after an
applied store mutation. -/
theorem c10_error_frame (fid : String) (now : Nat) (a : ManageAction)
    (inp : ManageInput) (s : ServerState) :
    (isErrorResult (memoryManage fid now a inp s).1 = true →
      (memoryManage fid now a inp s).2 = s) ∧
    ((memoryManage fid now a inp s).2.stats ≠ s.stats →
      (memoryManage fid now a inp s).2.store ≠ s.store) := by
  cases a with
  | create_topic =>
    cases hg : storeGet s.store inp.topic with
    | some ex =>
      constructor
      · intro _
        simp [memoryManage, createTopic, hg]
      · intro hst
        exact absurd (by simp [memoryManage, createTopic, hg]) hst
    | none =>
      constructor
      · intro h
        simp [memoryManage, createTopic, hg, isErrorResult] at h
      · intro _ heq
        have h1 : storeGet (memoryManage fid now ManageAction.create_topic inp s).2.store
            inp.topic =
            some ⟨fid, inp.topic, inp.description, inp.tags, [], now, now⟩ := by
          simp [memoryManage, createTopic, hg, storeGet_storeSet_self]
        rw [heq, hg] at h1
        exact Option.noConfusion h1
  | create_record =>
    by_cases hc : inp.content = ""
    · constructor
      · intro _
        simp [memoryManage, createRecord, hc]
      · intro hst
        exact absurd (by simp [memoryManage, createRecord, hc]) hst
    · cases hg : storeGet s.store inp.topic with
      | none =>
        constructor
        · intro _
          simp [memoryManage, createRecord, hc, hg]
        · intro hst
          exact absurd (by simp [memoryManage, createRecord, hc, hg]) hst
      | some td =>
        constructor
        · intro h
          simp [memoryManage, createRecord, hc, hg, isErrorResult] at h
        · intro _ heq
          have h1 : storeGet (memoryManage fid now ManageAction.create_record inp s).2.store
              inp.topic =
              some { td with
                records := td.records ++
                  [⟨fid, inp.content, inp.importance, inp.context, inp.metadata, now, now⟩]
                updatedAt := now } := by
            simp [memoryManage, createRecord, hc, hg, storeGet_storeSet_self]
          rw [heq, hg] at h1
          have h3 := congrArg (fun t => t.records.length) (Option.some.inj h1)
          simp at h3
  | update_topic =>
    cases hg : storeGet s.store inp.topic with
    | none =>
      constructor
      · intro _
        simp [memoryManage, updateTopic, hg]
      · intro hst
        exact absurd (by simp [memoryManage, updateTopic, hg]) hst
    | some td =>
      constructor
      · intro h
        simp [memoryManage, updateTopic, hg, isErrorResult] at h
      · intro hst
        exact absurd (by simp [memoryManage, updateTopic, hg]) hst
  | update_record =>
    by_cases hr : inp.recordId = ""
    · constructor
      · intro _
        simp [memoryManage, updateRecord, hr]
      · intro hst
        exact absurd (by simp [memoryManage, updateRecord, hr]) hst
    · cases hg : storeGet s.store inp.topic with
      | none =>
        constructor
        · intro _
          simp [memoryManage, updateRecord, hr, hg]
        · intro hst
          exact absurd (by simp [memoryManage, updateRecord, hr, hg]) hst
      | some td =>
        cases hf : td.records.find? (fun rec => rec.id == inp.recordId) with
        | none =>
          constructor
          · intro _
            simp [memoryManage, updateRecord, hr, hg, hf]
          · intro hst
            exact absurd (by simp [memoryManage, updateRecord, hr, hg, hf]) hst
        | some r0 =>
          constructor
          · intro h
            simp [memoryManage, updateRecord, hr, hg, hf, isErrorResult] at h
          · intro hst
            exact absurd (by simp [memoryManage, updateRecord, hr, hg, hf]) hst
  | delete_topic =>
    cases hg : storeGet s.store inp.topic with
    | none =>
      constructor
      · intro _
        simp [memoryManage, deleteTopic, hg]
      · intro hst
        exact absurd (by simp [memoryManage, deleteTopic, hg]) hst
    | some td =>
      cases hcf : inp.confirm with
      | false =>
        constructor
        · intro _
          simp [memoryManage, deleteTopic, hg, hcf]
        · intro hst
          exact absurd (by simp [memoryManage, deleteTopic, hg, hcf]) hst
      | true =>
        constructor
        · intro h
          simp [memoryManage, deleteTopic, hg, hcf, isErrorResult] at h
        · intro _ heq
          have h1 : storeGet (memoryManage fid now ManageAction.delete_topic inp s).2.store
              inp.topic = none := by
            simp [memoryManage, deleteTopic, hg, hcf, storeGet_storeDelete_self]
          rw [heq, hg] at h1
          exact Option.noConfusion h1
  | delete_record =>
    by_cases hr : inp.recordId = ""
    · constructor
      · intro _
        simp [memoryManage, deleteRecord, hr]
      · intro hst
        exact absurd (by simp [memoryManage, deleteRecord, hr]) hst
    · cases hg : storeGet s.store inp.topic with
      | none =>
        constructor
        · intro _
          simp [memoryManage, deleteRecord, hr, hg]
        · intro hst
          exact absurd (by simp [memoryManage, deleteRecord, hr, hg]) hst
      | some td =>
        cases hf : td.records.find? (fun rec => rec.id == inp.recordId) with
        | none =>
          constructor
          · intro _
            simp [memoryManage, deleteRecord, hr, hg, hf]
          · intro hst
            exact absurd (by simp [memoryManage, deleteRecord, hr, hg, hf]) hst
        | some r0 =>
          constructor
          · intro h
            simp [memoryManage, deleteRecord, hr, hg, hf, isErrorResult] at h
          · intro _ heq
            have h1 : storeGet
                (memoryManage fid now ManageAction.delete_record inp s).2.store inp.topic =
                some { td with
                  records := removeFirst (fun rec => rec.id == inp.recordId) td.records
                  updatedAt := now } := by
              simp [memoryManage, deleteRecord, hr, hg, hf, storeGet_storeSet_self]
            rw [heq, hg] at h1
            have h3 := congrArg (fun t => t.records.length) (Option.some.inj h1)
            have hlen := removeFirst_length hf
            simp only at h3
            omega

/-- C10 witness: the theorem evaluated on an error input (create_record
with empty content over the Notes state) and on a stats-changing input
(create_topic over the empty state). -/
theorem c10_error_frame_witness :
    (memoryManage "f" 1 ManageAction.create_record
      ⟨"Notes", "", [], "", Importance.medium, "", [], "", false⟩ stateNotes).2 =
      stateNotes ∧
    ¬ ((memoryManage "f" 1 ManageAction.create_topic
      ⟨"T", "", [], "", Importance.medium, "", [], "", false⟩
      ⟨[], initialStats⟩).2.store =
        (⟨[], initialStats⟩ : ServerState).store) := by
  refine ⟨?_, ?_⟩
  · exact (c10_error_frame "f" 1 ManageAction.create_record
      ⟨"Notes", "", [], "", Importance.medium, "", [], "", false⟩ stateNotes).1 (by decide)
  · exact (c10_error_frame "f" 1 ManageAction.create_topic
      ⟨"T", "", [], "", Importance.medium, "", [], "", false⟩
      ⟨[], initialStats⟩).2 (by decide)
